import Mathlib

/-!
# HTTP request parsers of the image server (package http, file parser.go)

A shallow embedding of the parsers of parser.go: the chain `ListParser`, the
concrete parsers for `source`, `format`, `quality` and `gamma_correction`, the
decorator `SourceURLParser` and the helpers `ParseQueryString`, `ParseQueryInt`,
`ParseQueryFloat`, `ParseQueryBool`.

Go mutates the parameter bag in place and returns an `error`; here `Parse`
takes the bag and returns the bag after the call together with the error
(`none` for Go's `nil`).
-/

namespace ImageServer

/-! ## Values, URLs, requests -/

/-- Go's net/url.URL, by value. `User` is the optional user name with its
optional password. -/
structure URL where
  Scheme : String
  Opaque : String
  User : Option (String × Option String)
  Host : String
  Path : String
  RawPath : String
  ForceQuery : Bool
  RawQuery : String
  Fragment : String
deriving DecidableEq, Repr

/-- A float64, kept as its IEEE-754 bit pattern. -/
structure Float64 where
  bits : Nat
deriving DecidableEq, Repr

/-- The dynamically typed values (Go `interface{}`) a bag can hold: string, int,
float64, bool, `*url.URL`, the nil interface, and `other` for a value of any
further type. -/
inductive Value where
  | str (s : String)
  | int (i : Int)
  | float (f : Float64)
  | bool (b : Bool)
  | url (u : URL)
  | nil
  | other (tag : Nat)
deriving DecidableEq, Repr

/-- The part of `*http.Request` the parsers read: `req.URL.Path` and the decoded
key/value pairs of `req.URL.Query()`, in the order of the query string. -/
structure Request where
  Path : String
  Query : List (String × String)
deriving DecidableEq, Repr

/-- Go's `url.Values.Get`: the first value associated with the key, or the empty
string when there is none. -/
def Values.Get (q : List (String × String)) (key : String) : String :=
  match q with
  | [] => ""
  | (k, v) :: rest => if k = key then v else Values.Get rest key

/-! ## Errors -/

/-- The values of Go's `error` that occur: `ParamError` is
`*imageserver.ParamError`; `NotSet` and `WrongType` are the failures of the
getters of the bag; `Custom` is any other error a `Parser` implementation may
return. -/
inductive Error where
  | ParamError (Param : String) (Message : String)
  | NotSet (key : String)
  | WrongType (key : String) (expected : String)
  | Custom (text : String)
deriving DecidableEq, Repr

/-! ## The parameter bag (imageserver.Params) -/

/-- Modelled from the spec: `imageserver.Params` (a Go `map[string]interface{}`,
declared outside parser.go), "mutable mapping from string key to a
dynamically-typed value"; `none` is an absent key. -/
abbrev Params := String → Option Value

/-- Modelled from the spec: the empty bag `imageserver.Params{}`. -/
def Params.empty : Params := fun _ => none

/-- Modelled from the spec: `Params.Set`, the bag with `key` bound to `v` and
every other key as before. -/
def Params.Set (params : Params) (key : String) (v : Value) : Params :=
  fun k => if k = key then some v else params k

/-- Modelled from the spec: `Params.Has`, whether the key is present. -/
def Params.Has (params : Params) (key : String) : Bool :=
  (params key).isSome

/-- Modelled from the spec: `Params.Get`, the value under the key, failing when
the key is absent. -/
def Params.Get (params : Params) (key : String) : Except Error Value :=
  match params key with
  | some v => .ok v
  | none => .error (Error.NotSet key)

/-- Modelled from the spec: `Params.GetString`, the "typed get-with-coercion-check":
the value under the key when it is a string, a failure otherwise. -/
def Params.GetString (params : Params) (key : String) : Except Error String :=
  match Params.Get params key with
  | .error e => .error e
  | .ok (Value.str s) => .ok s
  | .ok _ => .error (Error.WrongType key "string")

/-- The constant `imageserver.SourceParam`. -/
def SourceParam : String := "source"

/-! ## The standard library: strconv and fmt -/

/-- The two causes of a strconv failure, `strconv.ErrSyntax` and
`strconv.ErrRange`. -/
inductive ErrKind where
  | ErrSyntax
  | ErrRange
deriving DecidableEq, Repr

/-- The text of `strconv.ErrSyntax` and of `strconv.ErrRange`. -/
def ErrKind.Error : ErrKind → String
  | .ErrSyntax => "invalid syntax"
  | .ErrRange => "value out of range"

/-- Go's `*strconv.NumError`: the failing function, the input, the cause. -/
structure NumError where
  Func : String
  Num : String
  Err : ErrKind
deriving DecidableEq, Repr

/-- The parts of the Go platform and standard library that are taken as given:
the width of `int` (`strconv.IntSize`, 32 or 64), `strconv.Quote`,
`strconv.ParseFloat(s, 64)`, and the `%v` formatting by `fmt.Sprint` of a
float64, of a `*url.URL` (its `String()`) and of a value of any further type. -/
structure GoLib where
  IntSize : Nat
  Quote : String → String
  ParseFloat : String → Except NumError Float64
  FormatFloat : Float64 → String
  URLString : URL → String
  FormatOther : Nat → String

/-- Go's `(*strconv.NumError).Error()`:
`"strconv." + e.Func + ": parsing " + Quote(e.Num) + ": " + e.Err.Error()`. -/
def NumError.Error (lib : GoLib) (e : NumError) : String :=
  "strconv." ++ e.Func ++ ": parsing " ++ lib.Quote e.Num ++ ": " ++ e.Err.Error

/-- The largest uint64. -/
def maxUint64 : Nat := 2 ^ 64 - 1

/-- The digit loop of `strconv.ParseUint` for base 10, on the bytes still to
read and the number `n` read so far: a byte that is no decimal digit is a syntax
error; `n >= cutoff` (the product `n*10` would overflow a uint64), or a sum
`n*10 + d` that wraps around or exceeds `maxVal`, is a range error. -/
def ParseUint.loop (maxVal : Nat) : List Char → Nat → Except ErrKind Nat
  | [], n => .ok n
  | c :: cs, n =>
    if '0' ≤ c ∧ c ≤ '9' then
      if n ≥ maxUint64 / 10 + 1 then .error .ErrRange
      else if n * 10 + (c.toNat - '0'.toNat) > maxUint64
          ∨ n * 10 + (c.toNat - '0'.toNat) > maxVal then .error .ErrRange
      else ParseUint.loop maxVal cs (n * 10 + (c.toNat - '0'.toNat))
    else .error .ErrSyntax

/-- Go's `strconv.ParseUint(s, 10, bitSize)` on the characters of `s`, with the
cause of the failure only. -/
def ParseUint (s : List Char) (bitSize : Nat) : Except ErrKind Nat :=
  match s with
  | [] => .error .ErrSyntax
  | _ => ParseUint.loop (2 ^ bitSize - 1) s 0

/-- Go's `strconv.ParseInt(s, 10, bitSize)` for `bitSize` the width of `int`: an
optional sign, then `ParseUint`; a syntax error of `ParseUint` is returned as it
is, and the magnitude (`maxVal` after a range error of `ParseUint`) is checked
against `cutoff = 1 << (bitSize-1)`. -/
def ParseInt (s : List Char) (bitSize : Nat) : Except ErrKind Int :=
  match s with
  | [] => .error .ErrSyntax
  | c :: rest =>
    let neg := c = '-'
    let digits := if c = '+' ∨ c = '-' then rest else c :: rest
    match ParseUint digits bitSize with
    | .error .ErrSyntax => .error .ErrSyntax
    | r =>
      let un : Nat := match r with
        | .ok n => n
        | .error _ => 2 ^ bitSize - 1
      let cutoff : Nat := 2 ^ (bitSize - 1)
      if ¬ neg ∧ un ≥ cutoff then .error .ErrRange
      else if neg ∧ un > cutoff then .error .ErrRange
      else .ok (if neg then - (un : Int) else (un : Int))

/-- Go's `strconv.Atoi`: `ParseInt(s, 10, 0)` as an `int`, its failure a
`NumError` with function name `Atoi` and the whole input. -/
def Atoi (lib : GoLib) (s : String) : Except NumError Int :=
  match ParseInt s.data lib.IntSize with
  | .ok i => .ok i
  | .error k => .error { Func := "Atoi", Num := s, Err := k }

/-- Go's `strconv.ParseBool`. -/
def ParseBool (str : String) : Except NumError Bool :=
  if str = "1" ∨ str = "t" ∨ str = "T" ∨ str = "true" ∨ str = "TRUE" ∨ str = "True" then
    .ok true
  else if str = "0" ∨ str = "f" ∨ str = "F" ∨ str = "false" ∨ str = "FALSE"
      ∨ str = "False" then
    .ok false
  else .error { Func := "ParseBool", Num := str, Err := .ErrSyntax }

/-- Go's `strconv.Itoa`: the decimal representation of an integer. -/
def Itoa (i : Int) : String := toString i

/-- Go's `fmt.Sprint` of one value: a string is printed as it is, an int in
decimal, a bool as `true` or `false`, the nil interface as `<nil>`. -/
def Sprint (lib : GoLib) : Value → String
  | .str s => s
  | .int i => Itoa i
  | .float f => lib.FormatFloat f
  | .bool b => if b then "true" else "false"
  | .url u => lib.URLString u
  | .nil => "<nil>"
  | .other t => lib.FormatOther t

/-! ## parser.go -/

/-- The interface `Parser`: `Parse` gives the bag after the call and the error
(`none` for nil), `Resolve` the HTTP param or the empty string. -/
structure Parser where
  Parse : Request → Params → Params × Option Error
  Resolve : String → String

/-- The method `ListParser.Parse`: the members in order on the same request and
bag, returning the first error at once. -/
def ListParser.Parse (lp : List Parser) (req : Request) (params : Params) :
    Params × Option Error :=
  match lp with
  | [] => (params, none)
  | subParser :: rest =>
    match subParser.Parse req params with
    | (params1, some err) => (params1, some err)
    | (params1, none) => ListParser.Parse rest req params1

/-- The method `ListParser.Resolve`: the first non-empty answer of a member. -/
def ListParser.Resolve (lp : List Parser) (param : String) : String :=
  match lp with
  | [] => ""
  | subParser :: rest =>
    if subParser.Resolve param ≠ "" then subParser.Resolve param
    else ListParser.Resolve rest param

/-- The type `ListParser`, a list of parsers, as a `Parser`. -/
def ListParser (lp : List Parser) : Parser :=
  { Parse := ListParser.Parse lp, Resolve := ListParser.Resolve lp }

/-- `ParseQueryString`: the param of the query string, added to the bag when it
is not empty. -/
def ParseQueryString (param : String) (req : Request) (params : Params) : Params :=
  if Values.Get req.Query param ≠ "" then
    params.Set param (.str (Values.Get req.Query param))
  else params

/-- `newParseTypeParamError`: the `ParamError` of a failed parse. -/
def newParseTypeParamError (lib : GoLib) (param : String) (parseType : String)
    (parseErr : NumError) : Error :=
  .ParamError param ("parse " ++ parseType ++ ": " ++ parseErr.Error lib)

/-- `ParseQueryInt`: the param of the query string, parsed as an int. -/
def ParseQueryInt (lib : GoLib) (param : String) (req : Request) (params : Params) :
    Params × Option Error :=
  if Values.Get req.Query param = "" then (params, none)
  else
    match Atoi lib (Values.Get req.Query param) with
    | .error err => (params, some (newParseTypeParamError lib param "int" err))
    | .ok i => (params.Set param (.int i), none)

/-- `ParseQueryFloat`: the param of the query string, parsed as a float64. -/
def ParseQueryFloat (lib : GoLib) (param : String) (req : Request) (params : Params) :
    Params × Option Error :=
  if Values.Get req.Query param = "" then (params, none)
  else
    match lib.ParseFloat (Values.Get req.Query param) with
    | .error err => (params, some (newParseTypeParamError lib param "float" err))
    | .ok f => (params.Set param (.float f), none)

/-- `ParseQueryBool`: the param of the query string, parsed as a bool. -/
def ParseQueryBool (lib : GoLib) (param : String) (req : Request) (params : Params) :
    Params × Option Error :=
  if Values.Get req.Query param = "" then (params, none)
  else
    match ParseBool (Values.Get req.Query param) with
    | .error err => (params, some (newParseTypeParamError lib param "bool" err))
    | .ok b => (params.Set param (.bool b), none)

/-- The method `SourceParser.Parse`. -/
def SourceParser.Parse (req : Request) (params : Params) : Params × Option Error :=
  (ParseQueryString SourceParam req params, none)

/-- The method `SourceParser.Resolve`. -/
def SourceParser.Resolve (param : String) : String :=
  if param ≠ SourceParam then "" else SourceParam

/-- The type `SourceParser`, which takes the source param from the query. -/
def SourceParser : Parser :=
  { Parse := SourceParser.Parse, Resolve := SourceParser.Resolve }

/-- The method `SourcePathParser.Parse`. -/
def SourcePathParser.Parse (req : Request) (params : Params) : Params × Option Error :=
  (params.Set SourceParam (.str req.Path), none)

/-- The method `SourcePathParser.Resolve`. -/
def SourcePathParser.Resolve (_param : String) : String := ""

/-- The type `SourcePathParser`, which takes the source param from the path. -/
def SourcePathParser : Parser :=
  { Parse := SourcePathParser.Parse, Resolve := SourcePathParser.Resolve }

/-- Modelled from the spec: `copyURL`, declared outside parser.go, gives "a copy
of a fixed, pre-parsed base URL"; by value, the copy is the URL itself. -/
def copyURL (u : URL) : URL := u

/-- The method `SourceURLParser.Parse`, for the embedded parser `inner` and the
base URL `Base`. -/
def SourceURLParser.Parse (lib : GoLib) (inner : Parser) (Base : URL) (req : Request)
    (params : Params) : Params × Option Error :=
  match inner.Parse req params with
  | (params1, some err) => (params1, some err)
  | (params1, none) =>
    if ¬ params1.Has SourceParam then (params1, none)
    else
      let source := match params1.Get SourceParam with
        | .ok v => v
        | .error _ => Value.nil
      let u := copyURL Base
      let u := { u with Path := u.Path ++ Sprint lib source }
      (params1.Set SourceParam (.url u), none)

/-- The method `SourceURLParser.Resolve`. -/
def SourceURLParser.Resolve (inner : Parser) (param : String) : String :=
  inner.Resolve param

/-- The type `SourceURLParser`, which takes the source from the sub parser and
adds it to the base URL. -/
def SourceURLParser (lib : GoLib) (inner : Parser) (Base : URL) : Parser :=
  { Parse := SourceURLParser.Parse lib inner Base, Resolve := SourceURLParser.Resolve inner }

/-- The method `FormatParser.Parse`. -/
def FormatParser.Parse (req : Request) (params : Params) : Params × Option Error :=
  let params1 := ParseQueryString "format" req params
  if ¬ params1.Has "format" then (params1, none)
  else
    match params1.GetString "format" with
    | .error err => (params1, some err)
    | .ok format =>
      (params1.Set "format" (.str (if format = "jpg" then "jpeg" else format)), none)

/-- The method `FormatParser.Resolve`. -/
def FormatParser.Resolve (param : String) : String :=
  if param ≠ "format" then "" else "format"

/-- The type `FormatParser`, which takes the format param from the query. -/
def FormatParser : Parser :=
  { Parse := FormatParser.Parse, Resolve := FormatParser.Resolve }

/-- The method `QualityParser.Parse`. -/
def QualityParser.Parse (lib : GoLib) (req : Request) (params : Params) :
    Params × Option Error :=
  ParseQueryInt lib "quality" req params

/-- The method `QualityParser.Resolve`. -/
def QualityParser.Resolve (param : String) : String :=
  if param ≠ "quality" then "" else "quality"

/-- The type `QualityParser`, which takes the quality param from the query. -/
def QualityParser (lib : GoLib) : Parser :=
  { Parse := QualityParser.Parse lib, Resolve := QualityParser.Resolve }

/-- The method `GammaCorrectionParser.Parse`. -/
def GammaCorrectionParser.Parse (lib : GoLib) (req : Request) (params : Params) :
    Params × Option Error :=
  ParseQueryBool lib "gamma_correction" req params

/-- The method `GammaCorrectionParser.Resolve`. -/
def GammaCorrectionParser.Resolve (param : String) : String :=
  if param = "gamma_correction" then "gamma_correction" else ""

/-- The type `GammaCorrectionParser`, the parser for gamma correct. -/
def GammaCorrectionParser (lib : GoLib) : Parser :=
  { Parse := GammaCorrectionParser.Parse lib, Resolve := GammaCorrectionParser.Resolve }

/-! ## Definitions used to state the properties -/

/-- The bag after the members of `ms` have run in order on `req`, each on the bag
its predecessor left, whatever they returned. -/
def bagAfter (ms : List Parser) (req : Request) (params : Params) : Params :=
  match ms with
  | [] => params
  | m :: rest => bagAfter rest req (m.Parse req params).1

/-- What member `i` of the chain returns when it is invoked after the members
before it: its error, or `none` when it succeeds or there is no member `i`. -/
def memberResult (chain : List Parser) (i : Nat) (req : Request) (params : Params) :
    Option Error :=
  match chain.get? i with
  | some m => (m.Parse req (bagAfter (chain.take i) req params)).2
  | none => none

/-- A library for the examples: a 64-bit `int`; quoting puts the text between
double quotes (what `strconv.Quote` does for printable text without quotes and
backslashes); `ParseFloat` refuses every input with a syntax error, and the
formatting functions are placeholders, none of which an example relies on beyond
the refusal of a malformed float. -/
def lib64 : GoLib :=
  { IntSize := 64
    Quote := fun s => "\"" ++ s ++ "\""
    ParseFloat := fun s => .error { Func := "ParseFloat", Num := s, Err := .ErrSyntax }
    FormatFloat := fun _ => "0"
    URLString := fun u => u.Scheme ++ "://" ++ u.Host ++ u.Path
    FormatOther := fun _ => "" }

/-- An example chain: source, then quality, then format. -/
def chainSQF : List Parser := [SourceParser, QualityParser lib64, FormatParser]

/-- An example request, `/?format=png&quality=invalid&source=foo`. -/
def reqBadQuality : Request :=
  { Path := "/", Query := [("format", "png"), ("quality", "invalid"), ("source", "foo")] }

/-- An example request without a query, `/`. -/
def reqNoQuery : Request := { Path := "/", Query := [] }

/-- An example request, `/?quality=foobar&float=1x&gamma_correction=maybe`. -/
def reqMalformed : Request :=
  { Path := "/",
    Query := [("quality", "foobar"), ("float", "1x"), ("gamma_correction", "maybe")] }

/-- An example bag, `Params{"width": 100}`. -/
def bagWidth : Params := Params.empty.Set "width" (.int 100)

/-- An example request, `/?gamma_correction=True&format=jpg`. -/
def reqGammaTrue : Request :=
  { Path := "/", Query := [("gamma_correction", "True"), ("format", "jpg")] }

/-- An example request, `/foobar?gamma_correction=F&format=JPG`. -/
def reqGammaFalse : Request :=
  { Path := "/foobar", Query := [("gamma_correction", "F"), ("format", "JPG")] }

/-- An example request, `/?gamma_correction=yes`. -/
def reqGammaYes : Request := { Path := "/", Query := [("gamma_correction", "yes")] }

/-- The spellings `strconv.ParseBool` reads as true. -/
def trueSpellings : List String := ["1", "t", "T", "TRUE", "true", "True"]

/-- The spellings `strconv.ParseBool` reads as false. -/
def falseSpellings : List String := ["0", "f", "F", "FALSE", "false", "False"]

/-- An example bag, `Params{"format": 666}`. -/
def bagFormat666 : Params := Params.empty.Set "format" (.int 666)

/-- An example bag, `Params{"format": "jpg"}`. -/
def bagFormatJpg : Params := Params.empty.Set "format" (.str "jpg")

/-- An example bag, `Params{"format": "png"}`. -/
def bagFormatPng : Params := Params.empty.Set "format" (.str "png")

/-- The URL `http://store/image`, as `url.Parse` gives it. -/
def storeURL : URL :=
  { Scheme := "http", Opaque := "", User := none, Host := "store", Path := "/image",
    RawPath := "", ForceQuery := false, RawQuery := "", Fragment := "" }

/-- The URL `http://store/image/foobar`, as `url.Parse` gives it. -/
def storeFoobarURL : URL :=
  { Scheme := "http", Opaque := "", User := none, Host := "store", Path := "/image/foobar",
    RawPath := "", ForceQuery := false, RawQuery := "", Fragment := "" }

/-- An example request, `/foobar`. -/
def reqFoobar : Request := { Path := "/foobar", Query := [] }

/-- An example request, `/?quality=50&int=-9223372036854775808`. -/
def reqQuality50 : Request :=
  { Path := "/", Query := [("quality", "50"), ("int", "-9223372036854775808")] }

/-- An example bag, `Params{"source": "/abc"}`. -/
def bagSourceAbc : Params := Params.empty.Set SourceParam (.str "/abc")

/-- An example request, `/foobar?source=foo&utm=1`. -/
def reqSourceFoo : Request :=
  { Path := "/foobar", Query := [("source", "foo"), ("utm", "1")] }

/-- The parsers built from the concrete parsers of parser.go: the source, path,
format, quality and gamma correction parsers, a `SourceURLParser` around such a
parser, and a `ListParser` of such parsers. -/
inductive Concrete (lib : GoLib) : Parser → Prop where
  | source : Concrete lib SourceParser
  | sourcePath : Concrete lib SourcePathParser
  | sourceURL (inner : Parser) (Base : URL) :
      Concrete lib inner → Concrete lib (SourceURLParser lib inner Base)
  | format : Concrete lib FormatParser
  | quality : Concrete lib (QualityParser lib)
  | gammaCorrection : Concrete lib (GammaCorrectionParser lib)
  | list (ps : List Parser) : (∀ p ∈ ps, Concrete lib p) → Concrete lib (ListParser ps)

/-- The parsers that read one key of the query: the source, format, quality and
gamma correction parsers. -/
inductive QueryParser (lib : GoLib) : Parser → Prop where
  | source : QueryParser lib SourceParser
  | format : QueryParser lib FormatParser
  | quality : QueryParser lib (QualityParser lib)
  | gammaCorrection : QueryParser lib (GammaCorrectionParser lib)

/-- The query keys the concrete parsers read. -/
def recognizedKeys : List String := ["source", "format", "quality", "gamma_correction"]

/-- An example chain: a `SourceURLParser` on `http://store/image` around the chain
source, path-source; then format, quality and gamma correction. -/
def chainFull : List Parser :=
  [SourceURLParser lib64 (ListParser [SourceParser, SourcePathParser]) storeURL,
    FormatParser, QualityParser lib64, GammaCorrectionParser lib64]

/-- An example chain of query parsers: quality, source, format, gamma
correction. -/
def chainQuery : List Parser :=
  [QualityParser lib64, SourceParser, FormatParser, GammaCorrectionParser lib64]

/-- An example request, `/foobar?format=jpg&width=7&source=foo&quality=x`. -/
def reqExtraKeys : Request :=
  { Path := "/foobar",
    Query := [("format", "jpg"), ("width", "7"), ("source", "foo"), ("quality", "x")] }

/-- An example request, `/foobar?source=foo&quality=x&format=jpg&source=bar`. -/
def reqOtherKeys : Request :=
  { Path := "/foobar",
    Query := [("source", "foo"), ("quality", "x"), ("format", "jpg"), ("source", "bar")] }

/-- The object a `*url.URL` points to in a store of URL objects, the address being
the position in the store; `none` for a nil or dangling pointer, whose use is a
run-time panic. -/
def derefURL (store : List URL) (a : Nat) : Option URL := store[a]?

/-- Modelled from the spec: `copyURL` on a store of URL objects gives "a copy" of
the URL it is given: a new object, equal to the object at `a`, at a fresh
address. The result is the store with the new object and its address. -/
def copyURLAt (store : List URL) (a : Nat) : Option (List URL × Nat) :=
  match derefURL store a with
  | some u => some (store ++ [copyURL u], store.length)
  | none => none

/-- The assignment `u.Path += s` on the object at address `a`. -/
def appendPathAt (store : List URL) (a : Nat) (s : String) : Option (List URL) :=
  match derefURL store a with
  | some u => some (store.set a { u with Path := u.Path ++ s })
  | none => none

/-- The method `SourceURLParser.Parse` with the field `Base` as a pointer into a
store of URL objects: the result is the store after the call with the bag and
the error, or `none` for a run-time panic. The bag holds the URL written under
`source` by its contents. -/
def SourceURLParser.ParseAt (lib : GoLib) (inner : Parser) (store : List URL) (Base : Nat)
    (req : Request) (params : Params) : Option (List URL × Params × Option Error) :=
  match inner.Parse req params with
  | (params1, some err) => some (store, params1, some err)
  | (params1, none) =>
    if ¬ params1.Has SourceParam then some (store, params1, none)
    else
      let source := match params1.Get SourceParam with
        | .ok v => v
        | .error _ => Value.nil
      match copyURLAt store Base with
      | none => none
      | some (store1, u) =>
        match appendPathAt store1 u (Sprint lib source) with
        | none => none
        | some store2 =>
          match derefURL store2 u with
          | none => none
          | some obj => some (store2, params1.Set SourceParam (.url obj), none)

/-! ## Lemmas on the chain -/

theorem ListParser.Parse_cons_ok (m : Parser) (rest : List Parser) (req : Request)
    (params : Params) (h : (m.Parse req params).2 = none) :
    ListParser.Parse (m :: rest) req params
      = ListParser.Parse rest req (m.Parse req params).1 := by
  rcases hm : m.Parse req params with ⟨p1, r⟩
  rw [hm] at h
  simp only at h
  subst h
  simp [ListParser.Parse, hm]

theorem ListParser.Parse_cons_err (m : Parser) (rest : List Parser) (req : Request)
    (params : Params) (e : Error) (h : (m.Parse req params).2 = some e) :
    ListParser.Parse (m :: rest) req params = ((m.Parse req params).1, some e) := by
  rcases hm : m.Parse req params with ⟨p1, r⟩
  rw [hm] at h
  simp only at h
  subst h
  simp [ListParser.Parse, hm]

theorem memberResult_zero (m : Parser) (rest : List Parser) (req : Request)
    (params : Params) : memberResult (m :: rest) 0 req params = (m.Parse req params).2 := by
  simp [memberResult, bagAfter]

theorem memberResult_succ (m : Parser) (rest : List Parser) (i : Nat) (req : Request)
    (params : Params) :
    memberResult (m :: rest) (i + 1) req params
      = memberResult rest i req (m.Parse req params).1 := by
  simp [memberResult, bagAfter]

/-- The chain stops at the first failing member: the error is that member's, the
bag is the one left by the members up to it, whatever follows in the chain. -/
theorem ListParser.Parse_first_error (chain : List Parser) :
    ∀ (i : Nat) (req : Request) (params : Params) (e : Error) (rest : List Parser),
      (∀ j, j < i → memberResult chain j req params = none) →
      memberResult chain i req params = some e →
      ListParser.Parse (chain.take (i + 1) ++ rest) req params
        = (bagAfter (chain.take (i + 1)) req params, some e) := by
  induction chain with
  | nil =>
    intro i req params e rest _ hi
    simp [memberResult] at hi
  | cons m ms ih =>
    intro i req params e rest hlt hi
    cases i with
    | zero =>
      rw [memberResult_zero] at hi
      simp only [Nat.zero_add, List.take_succ_cons, List.take_zero, List.cons_append,
        List.nil_append, bagAfter]
      exact ListParser.Parse_cons_err m rest req params e hi
    | succ k =>
      have h0 : (m.Parse req params).2 = none := by
        have := hlt 0 (Nat.succ_pos k)
        rwa [memberResult_zero] at this
      rw [memberResult_succ] at hi
      have hlt1 : ∀ j, j < k → memberResult ms j req (m.Parse req params).1 = none := by
        intro j hj
        have := hlt (j + 1) (Nat.succ_lt_succ hj)
        rwa [memberResult_succ] at this
      simp only [List.take_succ_cons, List.cons_append, bagAfter]
      rw [ListParser.Parse_cons_ok m _ req params h0]
      exact ih k req (m.Parse req params).1 e rest hlt1 hi

theorem ListParser.Resolve_eq_empty (chain : List Parser) (p : String) :
    ListParser.Resolve chain p = "" ↔ ∀ m ∈ chain, m.Resolve p = "" := by
  induction chain with
  | nil => simp [ListParser.Resolve]
  | cons m ms ih =>
    by_cases hm : m.Resolve p = ""
    · simp [ListParser.Resolve, hm, ih]
    · simp [ListParser.Resolve, hm]

theorem ListParser.Resolve_first (pre : List Parser) (m : Parser) (post : List Parser)
    (p : String) (hpre : ∀ x ∈ pre, x.Resolve p = "") (hm : m.Resolve p ≠ "") :
    ListParser.Resolve (pre ++ m :: post) p = m.Resolve p := by
  induction pre with
  | nil => simp [ListParser.Resolve, hm]
  | cons x xs ih =>
    have hx : x.Resolve p = "" := hpre x (List.mem_cons_self x xs)
    have hxs : ∀ y ∈ xs, y.Resolve p = "" := fun y hy => hpre y (List.mem_cons_of_mem x hy)
    simp [ListParser.Resolve, hx, ih hxs]

/-! ## Lemmas on the query and the bag -/

theorem Values.Get_eq_empty (q : List (String × String)) (key : String)
    (h : ∀ v, (key, v) ∈ q → v = "") : Values.Get q key = "" := by
  induction q with
  | nil => rfl
  | cons kv rest ih =>
    obtain ⟨k, v⟩ := kv
    by_cases hk : k = key
    · subst hk
      simp [Values.Get, h v (List.mem_cons_self _ _)]
    · simp only [Values.Get, hk, if_false]
      exact ih (fun w hw => h w (List.mem_cons_of_mem _ hw))

theorem Params.Set_Set (params : Params) (key : String) (v w : Value) :
    (params.Set key v).Set key w = params.Set key w := by
  funext k
  by_cases hk : k = key <;> simp [Params.Set, hk]

theorem Params.Set_same (params : Params) (key : String) (v : Value)
    (h : params key = some v) : params.Set key v = params := by
  funext k
  by_cases hk : k = key
  · subst hk
    simp [Params.Set, h]
  · simp [Params.Set, hk]

/-! ## Lemmas on strconv: parsing the decimal representation -/

theorem digitChar_isDigit (d : Nat) (hd : d < 10) :
    ('0' ≤ Nat.digitChar d ∧ Nat.digitChar d ≤ '9')
      ∧ (Nat.digitChar d).toNat - '0'.toNat = d := by
  interval_cases d <;> decide

theorem ParseUint.loop_digit (maxVal : Nat) (cs : List Char) (q d : Nat) (hd : d < 10)
    (h64 : q * 10 + d ≤ maxUint64) (hmax : q * 10 + d ≤ maxVal) :
    ParseUint.loop maxVal (Nat.digitChar d :: cs) q = ParseUint.loop maxVal cs (q * 10 + d) := by
  have hc := digitChar_isDigit d hd
  have hq : ¬ q ≥ maxUint64 / 10 + 1 := by
    have : maxUint64 = 18446744073709551615 := by decide
    omega
  simp only [ParseUint.loop, hc.1, hc.2, and_self, if_true, hq, if_false]
  rw [if_neg]
  omega

theorem ParseUint.loop_toDigitsCore (maxVal : Nat) :
    ∀ (fuel n : Nat) (ds : List Char), n < fuel → n ≤ maxUint64 → n ≤ maxVal →
      ParseUint.loop maxVal (Nat.toDigitsCore 10 fuel n ds) 0 = ParseUint.loop maxVal ds n := by
  intro fuel
  induction fuel with
  | zero => intro n ds h; omega
  | succ f ih =>
    intro n ds hf h64 hmax
    have hmod : n % 10 < 10 := Nat.mod_lt n (by decide)
    have hdm : n / 10 * 10 + n % 10 = n := by omega
    by_cases h0 : n / 10 = 0
    · have hstep := ParseUint.loop_digit maxVal ds 0 (n % 10) hmod (by omega) (by omega)
      simp only [Nat.toDigitsCore, h0, if_true]
      rw [hstep]
      congr 1
      omega
    · simp only [Nat.toDigitsCore, h0, if_false]
      rw [ih (n / 10) _ (by omega) (by omega) (by omega)]
      rw [ParseUint.loop_digit maxVal ds (n / 10) (n % 10) hmod (by omega) (by omega), hdm]

theorem toDigitsCore_ne_nil (fuel n : Nat) (ds : List Char) (h : ds ≠ []) :
    Nat.toDigitsCore 10 fuel n ds ≠ [] := by
  induction fuel generalizing n ds with
  | zero => simpa [Nat.toDigitsCore] using h
  | succ f ih =>
    simp only [Nat.toDigitsCore]
    split
    · simp
    · exact ih _ _ (by simp)

theorem toDigits_ne_nil (n : Nat) : Nat.toDigits 10 n ≠ [] := by
  simp only [Nat.toDigits, Nat.toDigitsCore]
  split
  · simp
  · exact toDigitsCore_ne_nil _ _ _ (by simp)

theorem ParseUint_toDigits (n bitSize : Nat) (h64 : n ≤ maxUint64) (hmax : n ≤ 2 ^ bitSize - 1) :
    ParseUint (Nat.toDigits 10 n) bitSize = .ok n := by
  have hl := ParseUint.loop_toDigitsCore (2 ^ bitSize - 1) (n + 1) n [] (by omega) h64 hmax
  have hne := toDigits_ne_nil n
  unfold ParseUint
  split
  · rename_i h; exact absurd h hne
  · simpa [Nat.toDigits, ParseUint.loop] using hl


theorem toDigits_head_digit (n bitSize : Nat) (h64 : n ≤ maxUint64)
    (hmax : n ≤ 2 ^ bitSize - 1) :
    ∃ c cs, Nat.toDigits 10 n = c :: cs ∧ c ≠ '+' ∧ c ≠ '-' := by
  have hp := ParseUint_toDigits n bitSize h64 hmax
  cases hs : Nat.toDigits 10 n with
  | nil => exact absurd hs (toDigits_ne_nil n)
  | cons c cs =>
    refine ⟨c, cs, rfl, ?_, ?_⟩
    · intro hc
      subst hc
      rw [hs] at hp
      simp [ParseUint, ParseUint.loop] at hp
    · intro hc
      subst hc
      rw [hs] at hp
      simp [ParseUint, ParseUint.loop] at hp

theorem ParseInt_Itoa (n : Int) (bitSize : Nat) (h1 : 1 ≤ bitSize) (h64 : bitSize ≤ 64)
    (hlo : -(2 : Int) ^ (bitSize - 1) ≤ n) (hhi : n < (2 : Int) ^ (bitSize - 1)) :
    ParseInt (Itoa n).data bitSize = .ok n := by
  have hpow : 2 ^ (bitSize - 1) ≤ 2 ^ 63 := Nat.pow_le_pow_right (by decide) (by omega)
  have hpow2 : 2 ^ bitSize = 2 * 2 ^ (bitSize - 1) := by
    obtain ⟨k, rfl⟩ : ∃ k, bitSize = k + 1 := ⟨bitSize - 1, by omega⟩
    simp [pow_succ, Nat.mul_comm]
  have hpos : 0 < 2 ^ (bitSize - 1) := Nat.pos_pow_of_pos _ (by decide)
  have hm64 : maxUint64 = 18446744073709551615 := by decide
  have h63 : (2 : Nat) ^ 63 = 9223372036854775808 := by decide
  cases n with
  | ofNat m =>
    have hm : m < 2 ^ (bitSize - 1) := by
      have : (m : Int) < ((2 ^ (bitSize - 1) : Nat) : Int) := by simpa using hhi
      exact_mod_cast this
    have hp := ParseUint_toDigits m bitSize (by omega) (by omega)
    obtain ⟨c, cs, hcs, hplus, hminus⟩ := toDigits_head_digit m bitSize (by omega) (by omega)
    have hdata : (Itoa (Int.ofNat m)).data = c :: cs := by
      rw [← hcs]; rfl
    rw [hdata]
    rw [hcs] at hp
    simp only [ParseInt, hplus, hminus, or_self, if_false, hp]
    have hnot : ¬ (m ≥ 2 ^ (bitSize - 1)) := by omega
    simp [hnot]
  | negSucc m =>
    have hm : m + 1 ≤ 2 ^ (bitSize - 1) := by
      have : -((2 ^ (bitSize - 1) : Nat) : Int) ≤ Int.negSucc m := by simpa using hlo
      have h2 : Int.negSucc m = -((m + 1 : Nat) : Int) := rfl
      rw [h2] at this
      omega
    have hp := ParseUint_toDigits (m + 1) bitSize (by omega) (by omega)
    have hdata : (Itoa (Int.negSucc m)).data = '-' :: Nat.toDigits 10 (m + 1) := rfl
    rw [hdata]
    simp only [ParseInt, or_true, if_true, hp]
    have hnot : ¬ (m + 1 > 2 ^ (bitSize - 1)) := by omega
    simp [hnot]
    rw [Int.negSucc_eq]
    omega

theorem Atoi_Itoa (lib : GoLib) (n : Int) (h1 : 1 ≤ lib.IntSize) (h64 : lib.IntSize ≤ 64)
    (hlo : -(2 : Int) ^ (lib.IntSize - 1) ≤ n) (hhi : n < (2 : Int) ^ (lib.IntSize - 1)) :
    Atoi lib (Itoa n) = .ok n := by
  simp [Atoi, ParseInt_Itoa n lib.IntSize h1 h64 hlo hhi]

/-! ## The claims -/

/-- C1. `ListParser.Parse` is fail-fast without rollback: when member `i` is the
first member of the chain whose `Parse` returns an error, `ListParser.Parse`
returns exactly that error and the bag obtained by running the members `0..i` in
order, and no member after `i` is invoked: the result is the same whatever
members follow member `i`. -/
theorem C1_ListParser_Parse_fail_fast (chain : List Parser) (i : Nat) (req : Request)
    (params : Params) (e : Error)
    (hbefore : ∀ j, j < i → memberResult chain j req params = none)
    (hfail : memberResult chain i req params = some e) :
    (ListParser chain).Parse req params
        = (bagAfter (chain.take (i + 1)) req params, some e)
      ∧ ∀ rest : List Parser,
          (ListParser (chain.take (i + 1) ++ rest)).Parse req params
            = (ListParser chain).Parse req params := by
  have key := ListParser.Parse_first_error chain i req params e
  have hchain : (ListParser chain).Parse req params
      = (bagAfter (chain.take (i + 1)) req params, some e) := by
    have := key (chain.drop (i + 1)) hbefore hfail
    rwa [List.take_append_drop] at this
  refine ⟨hchain, fun rest => ?_⟩
  rw [hchain]
  exact key rest hbefore hfail

/-- Witness of C1: in the chain source, quality, format on
`/?format=png&quality=invalid&source=foo` and the empty bag, the quality parser
(member 1) is the first to fail; the chain returns its error, the source written
by member 0 is still in the bag and the format parser has written nothing. -/
theorem C1_ListParser_Parse_fail_fast_witness :
    (∀ j, j < 1 → memberResult chainSQF j reqBadQuality Params.empty = none)
      ∧ memberResult chainSQF 1 reqBadQuality Params.empty
          = some (.ParamError "quality"
              "parse int: strconv.Atoi: parsing \"invalid\": invalid syntax")
      ∧ ((ListParser chainSQF).Parse reqBadQuality Params.empty).2
          = some (.ParamError "quality"
              "parse int: strconv.Atoi: parsing \"invalid\": invalid syntax")
      ∧ ((ListParser chainSQF).Parse reqBadQuality Params.empty).1 "source"
          = some (.str "foo")
      ∧ ((ListParser chainSQF).Parse reqBadQuality Params.empty).1 "format" = none := by
  have hb : ∀ j, j < 1 → memberResult chainSQF j reqBadQuality Params.empty = none := by
    intro j hj
    have hj0 : j = 0 := by omega
    subst hj0
    decide
  have h := C1_ListParser_Parse_fail_fast chainSQF 1 reqBadQuality Params.empty
    (.ParamError "quality" "parse int: strconv.Atoi: parsing \"invalid\": invalid syntax")
    hb (by decide)
  refine ⟨hb, by decide, ?_, ?_, ?_⟩
  · rw [h.1]
  · rw [h.1]; decide
  · rw [h.1]; decide

/-- C2. `ListParser.Resolve` returns the answer of the first member, in
configured order, whose `Resolve` is non-empty; it returns the empty string
exactly when the `Resolve` of every member is empty, in particular for the empty
chain; and for a chain `[A, B]` where both give a non-empty answer the result is
the answer of `A`. -/
theorem C2_ListParser_Resolve_first_non_empty (chain : List Parser) (p : String) :
    (∀ (pre : List Parser) (m : Parser) (post : List Parser),
        chain = pre ++ m :: post → (∀ x ∈ pre, x.Resolve p = "") → m.Resolve p ≠ "" →
        (ListParser chain).Resolve p = m.Resolve p)
      ∧ ((ListParser chain).Resolve p = "" ↔ ∀ m ∈ chain, m.Resolve p = "")
      ∧ (ListParser []).Resolve p = ""
      ∧ (∀ A B : Parser, A.Resolve p ≠ "" → B.Resolve p ≠ "" →
          (ListParser [A, B]).Resolve p = A.Resolve p) := by
  refine ⟨?_, ListParser.Resolve_eq_empty chain p, rfl, ?_⟩
  · intro pre m post hc hpre hm
    subst hc
    exact ListParser.Resolve_first pre m post p hpre hm
  · intro A B hA _
    exact ListParser.Resolve_first [] A [B] p (fun x hx => absurd hx (List.not_mem_nil x)) hA

/-- Witness of C2: in the chain path-source, source, format the path parser
gives no answer for `source`, so the chain answers with the source parser; and in
a chain of a renaming parser followed by the source parser, which both answer for
`source`, the answer is the first one. -/
theorem C2_ListParser_Resolve_first_non_empty_witness :
    (ListParser [SourcePathParser, SourceParser, FormatParser]).Resolve "source" = "source"
      ∧ (ListParser [{ Parse := SourceParser.Parse, Resolve := fun _ => "src" },
            SourceParser]).Resolve "source" = "src"
      ∧ ((ListParser [SourcePathParser, SourceParser, FormatParser]).Resolve "quality" = ""
          ↔ ∀ m ∈ [SourcePathParser, SourceParser, FormatParser], m.Resolve "quality" = "") :=
  ⟨(C2_ListParser_Resolve_first_non_empty [SourcePathParser, SourceParser, FormatParser]
      "source").1 [SourcePathParser] SourceParser [FormatParser] rfl
      (by intro x hx; rw [List.mem_singleton] at hx; subst hx; rfl) (by decide),
    (C2_ListParser_Resolve_first_non_empty [] "source").2.2.2
      { Parse := SourceParser.Parse, Resolve := fun _ => "src" } SourceParser
      (by decide) (by decide),
    (C2_ListParser_Resolve_first_non_empty [SourcePathParser, SourceParser, FormatParser]
      "quality").2.1⟩

/-- C3. Absent means no-op for the primitive helpers: for every parameter name,
every bag and every request whose query has no value, or only the empty string,
for that name, `ParseQueryInt`, `ParseQueryFloat` and `ParseQueryBool` return no
error, `ParseQueryString` returns, and all four leave the bag exactly
unchanged. -/
theorem C3_absent_is_no_op (lib : GoLib) (param : String) (req : Request)
    (params : Params) (habsent : ∀ v, (param, v) ∈ req.Query → v = "") :
    ParseQueryInt lib param req params = (params, none)
      ∧ ParseQueryFloat lib param req params = (params, none)
      ∧ ParseQueryBool lib param req params = (params, none)
      ∧ ParseQueryString param req params = params := by
  have h : Values.Get req.Query param = "" := Values.Get_eq_empty req.Query param habsent
  simp [ParseQueryInt, ParseQueryFloat, ParseQueryBool, ParseQueryString, h]

/-- Witness of C3: the request `/?quality=foobar&float=1x&gamma_correction=maybe`
has no value for `int`, and the four helpers leave the bag `{"width": 100}` as
it is. -/
theorem C3_absent_is_no_op_witness :
    (∀ v, ("int", v) ∈ reqMalformed.Query → v = "")
      ∧ ParseQueryInt lib64 "int" reqMalformed bagWidth = (bagWidth, none)
      ∧ ParseQueryFloat lib64 "int" reqMalformed bagWidth = (bagWidth, none)
      ∧ ParseQueryBool lib64 "int" reqMalformed bagWidth = (bagWidth, none)
      ∧ ParseQueryString "int" reqMalformed bagWidth = bagWidth :=
  have h : ∀ v, ("int", v) ∈ reqMalformed.Query → v = "" := by
    intro v hv
    simp [reqMalformed] at hv
  ⟨h, C3_absent_is_no_op lib64 "int" reqMalformed bagWidth h⟩

/-- C4. For every parameter name and every request whose query value for that
name is non-empty and is no valid literal of the target type (the parse function
of strconv fails on it), `ParseQueryInt`, `ParseQueryFloat` and `ParseQueryBool`,
and hence `QualityParser` and `GammaCorrectionParser` for their names, return a
`ParamError` whose `Param` is the queried name and whose `Message` is
`parse <type>: ` followed by the text of the underlying parse error, with
`<type>` being `int`, `float` or `bool`; the bag is left unchanged. -/
theorem C4_malformed_is_ParamError (lib : GoLib) (param : String) (req : Request)
    (params : Params) (e : NumError) (hpresent : Values.Get req.Query param ≠ "") :
    (Atoi lib (Values.Get req.Query param) = .error e →
        ParseQueryInt lib param req params
          = (params, some (.ParamError param ("parse int: " ++ e.Error lib))))
      ∧ (lib.ParseFloat (Values.Get req.Query param) = .error e →
        ParseQueryFloat lib param req params
          = (params, some (.ParamError param ("parse float: " ++ e.Error lib))))
      ∧ (ParseBool (Values.Get req.Query param) = .error e →
        ParseQueryBool lib param req params
          = (params, some (.ParamError param ("parse bool: " ++ e.Error lib))))
      ∧ (param = "quality" → Atoi lib (Values.Get req.Query param) = .error e →
        (QualityParser lib).Parse req params
          = (params, some (.ParamError "quality" ("parse int: " ++ e.Error lib))))
      ∧ (param = "gamma_correction" → ParseBool (Values.Get req.Query param) = .error e →
        (GammaCorrectionParser lib).Parse req params
          = (params, some (.ParamError "gamma_correction"
              ("parse bool: " ++ e.Error lib)))) := by
  refine ⟨?_, ?_, ?_, ?_, ?_⟩
  · intro h
    simp [ParseQueryInt, hpresent, h, newParseTypeParamError, String.append_assoc]
  · intro h
    simp [ParseQueryFloat, hpresent, h, newParseTypeParamError, String.append_assoc]
  · intro h
    simp [ParseQueryBool, hpresent, h, newParseTypeParamError, String.append_assoc]
  · intro hp h
    subst hp
    simp [QualityParser, QualityParser.Parse, ParseQueryInt, hpresent, h,
      newParseTypeParamError, String.append_assoc]
  · intro hp h
    subst hp
    simp [GammaCorrectionParser, GammaCorrectionParser.Parse, ParseQueryBool, hpresent, h,
      newParseTypeParamError, String.append_assoc]

/-- Witness of C4: on `/?quality=foobar&float=1x&gamma_correction=maybe` the
three helpers and the two parsers fail with a `ParamError` naming the queried
key, and the bag `{"width": 100}` stays as it is. -/
theorem C4_malformed_is_ParamError_witness :
    Values.Get reqMalformed.Query "quality" ≠ ""
      ∧ Atoi lib64 (Values.Get reqMalformed.Query "quality")
          = .error { Func := "Atoi", Num := "foobar", Err := .ErrSyntax }
      ∧ ParseQueryInt lib64 "quality" reqMalformed bagWidth
          = (bagWidth, some (.ParamError "quality"
              "parse int: strconv.Atoi: parsing \"foobar\": invalid syntax"))
      ∧ (QualityParser lib64).Parse reqMalformed bagWidth
          = (bagWidth, some (.ParamError "quality"
              "parse int: strconv.Atoi: parsing \"foobar\": invalid syntax"))
      ∧ ParseQueryFloat lib64 "float" reqMalformed bagWidth
          = (bagWidth, some (.ParamError "float"
              "parse float: strconv.ParseFloat: parsing \"1x\": invalid syntax"))
      ∧ ParseQueryBool lib64 "gamma_correction" reqMalformed bagWidth
          = (bagWidth, some (.ParamError "gamma_correction"
              "parse bool: strconv.ParseBool: parsing \"maybe\": invalid syntax"))
      ∧ (GammaCorrectionParser lib64).Parse reqMalformed bagWidth
          = (bagWidth, some (.ParamError "gamma_correction"
              "parse bool: strconv.ParseBool: parsing \"maybe\": invalid syntax")) :=
  have hq := C4_malformed_is_ParamError lib64 "quality" reqMalformed bagWidth
    { Func := "Atoi", Num := "foobar", Err := .ErrSyntax } (by decide)
  have hf := C4_malformed_is_ParamError lib64 "float" reqMalformed bagWidth
    { Func := "ParseFloat", Num := "1x", Err := .ErrSyntax } (by decide)
  have hg := C4_malformed_is_ParamError lib64 "gamma_correction" reqMalformed bagWidth
    { Func := "ParseBool", Num := "maybe", Err := .ErrSyntax } (by decide)
  ⟨by decide, rfl, hq.1 rfl, hq.2.2.2.1 rfl rfl, hf.2.1 rfl, hg.2.2.1 rfl,
    hg.2.2.2.2 rfl rfl⟩

/-- C5. Integer round trip: for every integer `n` in the range of the platform
`int` (32 or 64 bits wide) and every parameter name, if the query value of the
request for that name is the decimal representation of `n`, then `ParseQueryInt`
(and `QualityParser` for the name `quality`) returns no error and the bag
afterwards holds the integer `n` under that name; there is no further
restriction on `n`. -/
theorem C5_integer_round_trip (lib : GoLib) (param : String) (req : Request)
    (params : Params) (n : Int) (hsize : lib.IntSize = 32 ∨ lib.IntSize = 64)
    (hlo : -(2 : Int) ^ (lib.IntSize - 1) ≤ n) (hhi : n < (2 : Int) ^ (lib.IntSize - 1))
    (hquery : Values.Get req.Query param = Itoa n) :
    ParseQueryInt lib param req params = (params.Set param (.int n), none)
      ∧ (param = "quality" →
          (QualityParser lib).Parse req params = (params.Set "quality" (.int n), none)) := by
  have hatoi : Atoi lib (Itoa n) = .ok n :=
    Atoi_Itoa lib n (by omega) (by omega) hlo hhi
  have hne : Itoa n ≠ "" := by
    intro h
    rw [h] at hatoi
    simp [Atoi, ParseInt] at hatoi
  have hint : ParseQueryInt lib param req params = (params.Set param (.int n), none) := by
    simp [ParseQueryInt, hquery, hne, hatoi]
  refine ⟨hint, ?_⟩
  intro hp
  subst hp
  exact hint

/-- Witness of C5: on `/?quality=50&int=-9223372036854775808` with a 64-bit
`int`, the quality parser stores 50 and `ParseQueryInt` stores the least `int`
under `int`. -/
theorem C5_integer_round_trip_witness :
    Values.Get reqQuality50.Query "quality" = Itoa 50
      ∧ (QualityParser lib64).Parse reqQuality50 bagWidth
          = (bagWidth.Set "quality" (.int 50), none)
      ∧ Values.Get reqQuality50.Query "int" = Itoa (-9223372036854775808)
      ∧ ParseQueryInt lib64 "int" reqQuality50 bagWidth
          = (bagWidth.Set "int" (.int (-9223372036854775808)), none) :=
  ⟨by decide,
    (C5_integer_round_trip lib64 "quality" reqQuality50 bagWidth 50 (Or.inr rfl)
      (by decide) (by decide) (by decide)).2 rfl,
    by decide,
    (C5_integer_round_trip lib64 "int" reqQuality50 bagWidth (-9223372036854775808)
      (Or.inr rfl) (by decide) (by decide) (by decide)).1⟩

/-- C6. `GammaCorrectionParser.Parse` accepts exactly the standard boolean
spellings: it stores true under `gamma_correction` when the query value is one of
`1`, `t`, `T`, `TRUE`, `true`, `True`, stores false when it is one of `0`, `f`,
`F`, `FALSE`, `false`, `False`, and for every other non-empty value returns a
`ParamError` naming `gamma_correction` (and stores nothing). -/
theorem C6_GammaCorrectionParser_spellings (lib : GoLib) (req : Request) (params : Params) :
    (Values.Get req.Query "gamma_correction" ∈ trueSpellings →
        (GammaCorrectionParser lib).Parse req params
          = (params.Set "gamma_correction" (.bool true), none))
      ∧ (Values.Get req.Query "gamma_correction" ∈ falseSpellings →
        (GammaCorrectionParser lib).Parse req params
          = (params.Set "gamma_correction" (.bool false), none))
      ∧ (Values.Get req.Query "gamma_correction" ≠ "" →
        Values.Get req.Query "gamma_correction" ∉ trueSpellings →
        Values.Get req.Query "gamma_correction" ∉ falseSpellings →
        ∃ msg, (GammaCorrectionParser lib).Parse req params
          = (params, some (.ParamError "gamma_correction" msg))) := by
  generalize hv : Values.Get req.Query "gamma_correction" = v
  refine ⟨?_, ?_, ?_⟩
  · intro h
    simp only [trueSpellings, List.mem_cons, List.mem_singleton, List.not_mem_nil,
      or_false] at h
    have hne : v ≠ "" := by
      rcases h with h | h | h | h | h | h <;> subst h <;> decide
    have ht : v = "1" ∨ v = "t" ∨ v = "T" ∨ v = "true" ∨ v = "TRUE" ∨ v = "True" := by
      tauto
    simp only [GammaCorrectionParser, GammaCorrectionParser.Parse, ParseQueryBool, hv, hne,
      ParseBool, if_false, if_pos ht]
  · intro h
    simp only [falseSpellings, List.mem_cons, List.mem_singleton, List.not_mem_nil,
      or_false] at h
    have hne : v ≠ "" := by
      rcases h with h | h | h | h | h | h <;> subst h <;> decide
    have hnt : ¬ (v = "1" ∨ v = "t" ∨ v = "T" ∨ v = "true" ∨ v = "TRUE" ∨ v = "True") := by
      rcases h with h | h | h | h | h | h <;> subst h <;> decide
    have hf : v = "0" ∨ v = "f" ∨ v = "F" ∨ v = "false" ∨ v = "FALSE" ∨ v = "False" := by
      tauto
    simp only [GammaCorrectionParser, GammaCorrectionParser.Parse, ParseQueryBool, hv, hne,
      ParseBool, if_false, if_neg hnt, if_pos hf]
  · intro hne ht hf
    simp only [trueSpellings, falseSpellings, List.mem_cons, List.mem_singleton,
      List.not_mem_nil, or_false] at ht hf
    have hnt : ¬ (v = "1" ∨ v = "t" ∨ v = "T" ∨ v = "true" ∨ v = "TRUE" ∨ v = "True") := by
      tauto
    have hnf : ¬ (v = "0" ∨ v = "f" ∨ v = "F" ∨ v = "false" ∨ v = "FALSE" ∨ v = "False") := by
      tauto
    refine ⟨"parse bool: " ++ NumError.Error lib
      { Func := "ParseBool", Num := v, Err := .ErrSyntax }, ?_⟩
    simp [GammaCorrectionParser, GammaCorrectionParser.Parse, ParseQueryBool, hv, hne,
      ParseBool, if_neg hnt, if_neg hnf, newParseTypeParamError, String.append_assoc]

/-- Witness of C6: `gamma_correction=True` stores true, `gamma_correction=F`
stores false, and `gamma_correction=yes` is refused with a `ParamError` naming
`gamma_correction`. -/
theorem C6_GammaCorrectionParser_spellings_witness :
    Values.Get reqGammaTrue.Query "gamma_correction" ∈ trueSpellings
      ∧ (GammaCorrectionParser lib64).Parse reqGammaTrue bagWidth
          = (bagWidth.Set "gamma_correction" (.bool true), none)
      ∧ Values.Get reqGammaFalse.Query "gamma_correction" ∈ falseSpellings
      ∧ (GammaCorrectionParser lib64).Parse reqGammaFalse bagWidth
          = (bagWidth.Set "gamma_correction" (.bool false), none)
      ∧ (Values.Get reqGammaYes.Query "gamma_correction" ≠ ""
          ∧ Values.Get reqGammaYes.Query "gamma_correction" ∉ trueSpellings
          ∧ Values.Get reqGammaYes.Query "gamma_correction" ∉ falseSpellings)
      ∧ ∃ msg, (GammaCorrectionParser lib64).Parse reqGammaYes bagWidth
          = (bagWidth, some (.ParamError "gamma_correction" msg)) :=
  ⟨by decide,
    (C6_GammaCorrectionParser_spellings lib64 reqGammaTrue bagWidth).1 (by decide),
    by decide,
    (C6_GammaCorrectionParser_spellings lib64 reqGammaFalse bagWidth).2.1 (by decide),
    ⟨by decide, by decide, by decide⟩,
    (C6_GammaCorrectionParser_spellings lib64 reqGammaYes bagWidth).2.2
      (by decide) (by decide) (by decide)⟩

/-- C7. Format alias normalisation: for every bag and every request whose query
value `v` for `format` is non-empty, `FormatParser.Parse` returns no error and
the bag afterwards holds the string `jpeg` under `format` if `v` is exactly
`jpg`, and `v` itself for every other `v`; every other key is as before. -/
theorem C7_FormatParser_alias (req : Request) (params : Params)
    (hpresent : Values.Get req.Query "format" ≠ "") :
    FormatParser.Parse req params
        = (params.Set "format" (.str (if Values.Get req.Query "format" = "jpg" then "jpeg"
            else Values.Get req.Query "format")), none)
      ∧ (Values.Get req.Query "format" = "jpg" →
          (FormatParser.Parse req params).1 "format" = some (.str "jpeg"))
      ∧ (Values.Get req.Query "format" ≠ "jpg" →
          (FormatParser.Parse req params).1 "format"
            = some (.str (Values.Get req.Query "format"))) := by
  have h : FormatParser.Parse req params
      = (params.Set "format" (.str (if Values.Get req.Query "format" = "jpg" then "jpeg"
          else Values.Get req.Query "format")), none) := by
    simp [FormatParser.Parse, ParseQueryString, hpresent, Params.Has, Params.GetString,
      Params.Get, Params.Set_Set, Params.Set]
  refine ⟨h, ?_, ?_⟩
  · intro hv
    simp [h, hv, Params.Set]
  · intro hv
    simp [h, hv, Params.Set]

/-- Witness of C7: `format=jpg` stores `jpeg`, and `format=JPG` stores `JPG`
(the alias is case-sensitive). -/
theorem C7_FormatParser_alias_witness :
    Values.Get reqGammaTrue.Query "format" ≠ ""
      ∧ FormatParser.Parse reqGammaTrue bagFormat666
          = (bagFormat666.Set "format" (.str "jpeg"), none)
      ∧ Values.Get reqGammaFalse.Query "format" ≠ ""
      ∧ FormatParser.Parse reqGammaFalse bagFormat666
          = (bagFormat666.Set "format" (.str "JPG"), none) :=
  ⟨by decide, (C7_FormatParser_alias reqGammaTrue bagFormat666 (by decide)).1,
    by decide, (C7_FormatParser_alias reqGammaFalse bagFormat666 (by decide)).1⟩

/-- Counterexample to C8 as stated: the request `/` has no format value, yet on
the bag `{"format": 666}` `FormatParser.Parse` returns an error, and on the bag
`{"format": "jpg"}` it changes the bag (to `{"format": "jpeg"}`). -/
theorem C8_absent_format_counterexample :
    Values.Get reqNoQuery.Query "format" = ""
      ∧ (FormatParser.Parse reqNoQuery bagFormat666).2
          = some (Error.WrongType "format" "string")
      ∧ (FormatParser.Parse reqNoQuery bagFormatJpg).2 = none
      ∧ bagFormatJpg "format" = some (.str "jpg")
      ∧ (FormatParser.Parse reqNoQuery bagFormatJpg).1 "format" = some (.str "jpeg") := by
  decide

/-- C8, amended. For every request whose query has no format value and every bag
that holds nothing or a string under `format`, `FormatParser.Parse` returns no
error; it leaves the bag unchanged when the bag holds nothing or a string other
than `jpg` under `format`, and replaces a held string `jpg` by `jpeg`. -/
theorem C8_absent_format_amended (req : Request) (params : Params)
    (habsent : Values.Get req.Query "format" = "") :
    (params "format" = none → FormatParser.Parse req params = (params, none))
      ∧ (∀ s, params "format" = some (.str s) → s ≠ "jpg" →
          FormatParser.Parse req params = (params, none))
      ∧ (params "format" = some (.str "jpg") →
          FormatParser.Parse req params = (params.Set "format" (.str "jpeg"), none)) := by
  refine ⟨?_, ?_, ?_⟩
  · intro h
    simp [FormatParser.Parse, ParseQueryString, habsent, Params.Has, h]
  · intro s h hs
    simp [FormatParser.Parse, ParseQueryString, habsent, Params.Has, Params.GetString,
      Params.Get, h, hs, Params.Set_same]
  · intro h
    simp [FormatParser.Parse, ParseQueryString, habsent, Params.Has, Params.GetString,
      Params.Get, h]

/-- Witness of C8, amended: on the request `/` the bags `{"width": 100}` and
`{"format": "png"}` are left as they are, and `{"format": "jpg"}` becomes
`{"format": "jpeg"}`. -/
theorem C8_absent_format_amended_witness :
    Values.Get reqNoQuery.Query "format" = ""
      ∧ FormatParser.Parse reqNoQuery bagWidth = (bagWidth, none)
      ∧ FormatParser.Parse reqNoQuery bagFormatPng = (bagFormatPng, none)
      ∧ FormatParser.Parse reqNoQuery bagFormatJpg
          = (bagFormatJpg.Set "format" (.str "jpeg"), none) :=
  ⟨by decide,
    (C8_absent_format_amended reqNoQuery bagWidth (by decide)).1 (by decide),
    (C8_absent_format_amended reqNoQuery bagFormatPng (by decide)).2.1 "png" (by decide)
      (by decide),
    (C8_absent_format_amended reqNoQuery bagFormatJpg (by decide)).2.2 (by decide)⟩

/-- C9. For every request whose query has no format value and every bag that
already holds a non-string value under the key `format`, `FormatParser.Parse`
returns an error (and leaves the bag as it is). -/
theorem C9_FormatParser_non_string_error (req : Request) (params : Params) (v : Value)
    (habsent : Values.Get req.Query "format" = "")
    (hheld : params "format" = some v) (hnonstring : ∀ s, v ≠ .str s) :
    ∃ err, FormatParser.Parse req params = (params, some err) := by
  refine ⟨Error.WrongType "format" "string", ?_⟩
  cases v with
  | str s => exact absurd rfl (hnonstring s)
  | int i =>
    simp [FormatParser.Parse, ParseQueryString, habsent, Params.Has, Params.GetString,
      Params.Get, hheld]
  | float f =>
    simp [FormatParser.Parse, ParseQueryString, habsent, Params.Has, Params.GetString,
      Params.Get, hheld]
  | bool b =>
    simp [FormatParser.Parse, ParseQueryString, habsent, Params.Has, Params.GetString,
      Params.Get, hheld]
  | url u =>
    simp [FormatParser.Parse, ParseQueryString, habsent, Params.Has, Params.GetString,
      Params.Get, hheld]
  | nil =>
    simp [FormatParser.Parse, ParseQueryString, habsent, Params.Has, Params.GetString,
      Params.Get, hheld]
  | other t =>
    simp [FormatParser.Parse, ParseQueryString, habsent, Params.Has, Params.GetString,
      Params.Get, hheld]

/-- Witness of C9: the request `/` on the bag `{"format": 666}`. -/
theorem C9_FormatParser_non_string_error_witness :
    Values.Get reqNoQuery.Query "format" = ""
      ∧ bagFormat666 "format" = some (.int 666)
      ∧ ∃ err, FormatParser.Parse reqNoQuery bagFormat666 = (bagFormat666, some err) :=
  ⟨by decide, by decide,
    C9_FormatParser_non_string_error reqNoQuery bagFormat666 (.int 666) (by decide)
      (by decide) (by intro s h; cases h)⟩

/-- C10. Derived-URL composition: for every base URL, request and bag, if the
inner parser succeeds and the bag then holds a string `s` under `source`,
`SourceURLParser.Parse` returns no error and overwrites `source` with a URL value
that equals the base URL in every component except the path, which is the base
path immediately followed by `s`; with base `http://store/image` and the path
parser on `/foobar` the result is `http://store/image/foobar`. -/
theorem C10_SourceURLParser_composition (lib : GoLib) (inner : Parser) (Base : URL)
    (req : Request) (params params1 : Params) (s : String)
    (hinner : inner.Parse req params = (params1, none))
    (hsource : params1 SourceParam = some (.str s)) :
    (SourceURLParser lib inner Base).Parse req params
        = (params1.Set SourceParam (.url { Base with Path := Base.Path ++ s }), none)
      ∧ (SourceURLParser lib SourcePathParser storeURL).Parse reqFoobar Params.empty
        = (Params.empty.Set SourceParam (.url storeFoobarURL), none) := by
  constructor
  · simp [SourceURLParser, SourceURLParser.Parse, hinner, Params.Has, Params.Get, hsource,
      copyURL, Sprint]
  · have h : (Params.empty.Set SourceParam (.str reqFoobar.Path)) SourceParam
        = some (.str "/foobar") := by decide
    simp [SourceURLParser, SourceURLParser.Parse, SourcePathParser, SourcePathParser.Parse,
      Params.Has, Params.Get, h, copyURL, Sprint, Params.Set_Set, storeURL, storeFoobarURL]

/-- Witness of C10: the source parser as inner parser on `/?source=/a.png`
(with a format value too) and the base `http://store/image`: the bag holds the
URL with path `/image/a.png`, the other components those of the base. -/
theorem C10_SourceURLParser_composition_witness :
    SourceParser.Parse { Path := "/", Query := [("source", "/a.png")] } bagWidth
        = (bagWidth.Set SourceParam (.str "/a.png"), none)
      ∧ (bagWidth.Set SourceParam (.str "/a.png")) SourceParam = some (.str "/a.png")
      ∧ (SourceURLParser lib64 SourceParser storeURL).Parse
          { Path := "/", Query := [("source", "/a.png")] } bagWidth
        = ((bagWidth.Set SourceParam (.str "/a.png")).Set SourceParam
            (.url { storeURL with Path := storeURL.Path ++ "/a.png" }), none) :=
  ⟨rfl, by decide,
    (C10_SourceURLParser_composition lib64 SourceParser storeURL
      { Path := "/", Query := [("source", "/a.png")] } bagWidth
      (bagWidth.Set SourceParam (.str "/a.png")) "/a.png" rfl (by decide)).1⟩

/-- Counterexample to C11 as stated: on the request `/` and the bag
`{"source": "/abc"}` the inner source parser succeeds without writing anything
(the bag is as before), yet `SourceURLParser.Parse` composes a URL from the
`source` it finds in the bag and overwrites the key. -/
theorem C11_SourceURLParser_inactive_counterexample :
    SourceParser.Parse reqNoQuery bagSourceAbc = (bagSourceAbc, none)
      ∧ bagSourceAbc SourceParam = some (.str "/abc")
      ∧ ((SourceURLParser lib64 SourceParser storeURL).Parse reqNoQuery bagSourceAbc).2 = none
      ∧ ((SourceURLParser lib64 SourceParser storeURL).Parse reqNoQuery bagSourceAbc).1
          SourceParam = some (.url { storeURL with Path := "/image/abc" }) :=
  ⟨rfl, by decide, by decide, by decide⟩

/-- C11, amended. `SourceURLParser` is inactive when the `source` key is absent
after the inner parser: for every inner parser, request and bag, if the inner
`Parse` succeeds and the bag then holds no `source` key, `SourceURLParser.Parse`
returns no error and leaves the bag as the inner parser left it; no URL is
composed and `source` stays absent. -/
theorem C11_SourceURLParser_inactive_amended (lib : GoLib) (inner : Parser) (Base : URL)
    (req : Request) (params params1 : Params)
    (hinner : inner.Parse req params = (params1, none))
    (habsent : params1 SourceParam = none) :
    (SourceURLParser lib inner Base).Parse req params = (params1, none)
      ∧ ((SourceURLParser lib inner Base).Parse req params).1 SourceParam = none := by
  have h : (SourceURLParser lib inner Base).Parse req params = (params1, none) := by
    simp [SourceURLParser, SourceURLParser.Parse, hinner, Params.Has, habsent]
  exact ⟨h, by rw [h]; exact habsent⟩

/-- Witness of C11, amended: the source parser as inner parser on the request
`/` and the bag `{"width": 100}`, which holds no `source`. -/
theorem C11_SourceURLParser_inactive_amended_witness :
    SourceParser.Parse reqNoQuery bagWidth = (bagWidth, none)
      ∧ bagWidth SourceParam = none
      ∧ (SourceURLParser lib64 SourceParser storeURL).Parse reqNoQuery bagWidth
          = (bagWidth, none) :=
  ⟨rfl, by decide,
    (C11_SourceURLParser_inactive_amended lib64 SourceParser storeURL reqNoQuery bagWidth
      bagWidth rfl (by decide)).1⟩

/-- C12. `SourceParser.Parse` never returns an error, and for every bag and
every request whose query value `v` for `source` is non-empty, the bag
afterwards holds exactly the string `v` under `source`, with every other key
unchanged. -/
theorem C12_SourceParser_identity (req : Request) (params : Params) :
    (SourceParser.Parse req params).2 = none
      ∧ (Values.Get req.Query "source" ≠ "" →
          (SourceParser.Parse req params).1 "source"
              = some (.str (Values.Get req.Query "source"))
            ∧ (∀ k, k ≠ "source" → (SourceParser.Parse req params).1 k = params k)
            ∧ SourceParser.Parse req params
              = (params.Set "source" (.str (Values.Get req.Query "source")), none)) := by
  refine ⟨rfl, fun hv => ?_⟩
  have h : SourceParser.Parse req params
      = (params.Set "source" (.str (Values.Get req.Query "source")), none) := by
    simp [SourceParser.Parse, ParseQueryString, SourceParam, hv]
  refine ⟨by simp [h, Params.Set], ?_, h⟩
  intro k hk
  simp [h, Params.Set, hk]

/-- Witness of C12: `/foobar?source=foo&utm=1` on the bag `{"width": 100}`. -/
theorem C12_SourceParser_identity_witness :
    Values.Get reqSourceFoo.Query "source" ≠ ""
      ∧ SourceParser.Parse reqSourceFoo bagWidth
          = (bagWidth.Set "source" (.str "foo"), none) :=
  ⟨by decide, ((C12_SourceParser_identity reqSourceFoo bagWidth).2 (by decide)).2.2⟩

/-- C13. `SourcePathParser.Parse` never returns an error and, for every request
and every bag, leaves the bag holding exactly the URL path of the request as a
string under `source`, overwriting any earlier value and changing no other key;
so in a chain `[SourceParser, SourcePathParser]` the path always wins over the
`source` query value. -/
theorem C13_SourcePathParser_path (req : Request) (params : Params) :
    SourcePathParser.Parse req params = (params.Set "source" (.str req.Path), none)
      ∧ (SourcePathParser.Parse req params).1 "source" = some (.str req.Path)
      ∧ (∀ k, k ≠ "source" → (SourcePathParser.Parse req params).1 k = params k)
      ∧ (ListParser [SourceParser, SourcePathParser]).Parse req params
          = (params.Set "source" (.str req.Path), none) := by
  refine ⟨rfl, by simp [SourcePathParser.Parse, Params.Set, SourceParam], ?_, ?_⟩
  · intro k hk
    simp [SourcePathParser.Parse, Params.Set, SourceParam, hk]
  · by_cases hv : Values.Get req.Query "source" = ""
    · simp [ListParser, ListParser.Parse, SourceParser, SourceParser.Parse,
        SourcePathParser, SourcePathParser.Parse, ParseQueryString, SourceParam, hv]
    · simp [ListParser, ListParser.Parse, SourceParser, SourceParser.Parse,
        SourcePathParser, SourcePathParser.Parse, ParseQueryString, SourceParam, hv,
        Params.Set_Set]

/-- Witness of C13: on `/foobar?source=foo&utm=1` and the bag
`{"source": "/abc"}` the chain source, path-source leaves `/foobar` under
`source`, and the path parser leaves the key `width` as it finds it. -/
theorem C13_SourcePathParser_path_witness :
    (ListParser [SourceParser, SourcePathParser]).Parse reqSourceFoo bagSourceAbc
        = (bagSourceAbc.Set "source" (.str "/foobar"), none)
      ∧ ("width" ≠ "source"
          ∧ (SourcePathParser.Parse reqSourceFoo bagWidth).1 "width" = bagWidth "width") :=
  ⟨(C13_SourcePathParser_path reqSourceFoo bagSourceAbc).2.2.2,
    by decide, (C13_SourcePathParser_path reqSourceFoo bagWidth).2.2.1 "width" (by decide)⟩

/-- C14. `Resolve` of the concrete parsers: for every name `p`, `SourceParser`,
`FormatParser`, `QualityParser` and `GammaCorrectionParser` return `p` when `p`
is the key of the parser (`source`, `format`, `quality`, `gamma_correction`) and
the empty string for every other `p`, while `SourcePathParser.Resolve` returns
the empty string for every `p`, `source` included. -/
theorem C14_Resolve_concrete (lib : GoLib) (p : String) :
    SourceParser.Resolve p = (if p = "source" then p else "")
      ∧ FormatParser.Resolve p = (if p = "format" then p else "")
      ∧ (QualityParser lib).Resolve p = (if p = "quality" then p else "")
      ∧ (GammaCorrectionParser lib).Resolve p = (if p = "gamma_correction" then p else "")
      ∧ SourcePathParser.Resolve p = ""
      ∧ SourcePathParser.Resolve "source" = "" := by
  refine ⟨?_, ?_, ?_, ?_, rfl, rfl⟩
  · by_cases h : p = "source" <;> simp [SourceParser.Resolve, SourceParam, h]
  · by_cases h : p = "format" <;> simp [FormatParser.Resolve, h]
  · by_cases h : p = "quality" <;> simp [QualityParser, QualityParser.Resolve, h]
  · by_cases h : p = "gamma_correction" <;>
      simp [GammaCorrectionParser, GammaCorrectionParser.Resolve, h]

/-- C15. `SourceURLParser.Resolve` delegates unchanged: for every inner parser,
every base URL and every name `p`, it gives what the `Resolve` of the inner
parser gives; the base URL has no influence on the answer. -/
theorem C15_SourceURLParser_Resolve_delegates (lib : GoLib) (inner : Parser)
    (Base Base2 : URL) (p : String) :
    (SourceURLParser lib inner Base).Resolve p = inner.Resolve p
      ∧ (SourceURLParser lib inner Base).Resolve p
          = (SourceURLParser lib inner Base2).Resolve p :=
  ⟨rfl, rfl⟩

/-! ## Lemmas on nested chains -/

theorem ListParser.Parse_append (xs ys : List Parser) (req : Request) (params : Params) :
    ListParser.Parse (xs ++ ys) req params
      = match ListParser.Parse xs req params with
        | (params1, some err) => (params1, some err)
        | (params1, none) => ListParser.Parse ys req params1 := by
  induction xs generalizing params with
  | nil => simp [ListParser.Parse]
  | cons x rest ih =>
    rcases hx : x.Parse req params with ⟨p1, r⟩
    cases r with
    | none => simp [ListParser.Parse, hx, ih]
    | some e => simp [ListParser.Parse, hx]

theorem ListParser.Resolve_append (xs ys : List Parser) (p : String) :
    ListParser.Resolve (xs ++ ys) p
      = if ListParser.Resolve xs p ≠ "" then ListParser.Resolve xs p
        else ListParser.Resolve ys p := by
  induction xs with
  | nil => simp [ListParser.Resolve]
  | cons x rest ih =>
    by_cases hx : x.Resolve p = ""
    · simp [ListParser.Resolve, hx, ih]
    · simp [ListParser.Resolve, hx]

/-- C19. Nesting chains is transparent: for all lists of parsers `xs` and `ys`,
the chain `ListParser{ListParser(xs), ListParser(ys)}` and the flat chain
`ListParser(xs ++ ys)` return the same result and produce the same bag from
`Parse` for every request and bag, and the same answer from `Resolve` for every
name. -/
theorem C19_nested_chain_transparent (xs ys : List Parser) (req : Request)
    (params : Params) (p : String) :
    (ListParser [ListParser xs, ListParser ys]).Parse req params
        = (ListParser (xs ++ ys)).Parse req params
      ∧ (ListParser [ListParser xs, ListParser ys]).Resolve p
        = (ListParser (xs ++ ys)).Resolve p := by
  constructor
  · show ListParser.Parse [ListParser xs, ListParser ys] req params
        = ListParser.Parse (xs ++ ys) req params
    rw [ListParser.Parse_append]
    rcases hx : ListParser.Parse xs req params with ⟨p1, r⟩
    cases r with
    | some e => simp [ListParser.Parse, ListParser, hx]
    | none =>
      rcases hy : ListParser.Parse ys req p1 with ⟨p2, r2⟩
      cases r2 with
      | some e => simp [ListParser.Parse, ListParser, hx, hy]
      | none => simp [ListParser.Parse, ListParser, hx, hy]
  · show ListParser.Resolve [ListParser xs, ListParser ys] p
        = ListParser.Resolve (xs ++ ys) p
    rw [ListParser.Resolve_append]
    by_cases hx : ListParser.Resolve xs p = ""
    · by_cases hy : ListParser.Resolve ys p = ""
      · simp [ListParser.Resolve, ListParser, hx, hy]
      · simp [ListParser.Resolve, ListParser, hx, hy]
    · simp [ListParser.Resolve, ListParser, hx]

/-! ## Lemmas on the parsers built from the concrete parsers -/

theorem chainFull_concrete : ∀ p ∈ chainFull, Concrete lib64 p := by
  intro p hp
  simp only [chainFull, List.mem_cons, List.mem_singleton, List.not_mem_nil, or_false] at hp
  rcases hp with rfl | rfl | rfl | rfl
  · refine Concrete.sourceURL _ _ (Concrete.list _ ?_)
    intro q hq
    simp only [List.mem_cons, List.mem_singleton, List.not_mem_nil, or_false] at hq
    rcases hq with rfl | rfl
    · exact Concrete.source
    · exact Concrete.sourcePath
  · exact Concrete.format
  · exact Concrete.quality
  · exact Concrete.gammaCorrection

theorem chainQuery_query : ∀ p ∈ chainQuery, QueryParser lib64 p := by
  intro p hp
  simp only [chainQuery, List.mem_cons, List.mem_singleton, List.not_mem_nil, or_false] at hp
  rcases hp with rfl | rfl | rfl | rfl
  · exact QueryParser.quality
  · exact QueryParser.source
  · exact QueryParser.format
  · exact QueryParser.gammaCorrection

theorem ListParser.Parse_congr_req (ps : List Parser) (req1 req2 : Request)
    (h : ∀ p ∈ ps, ∀ params, p.Parse req1 params = p.Parse req2 params) :
    ∀ params, ListParser.Parse ps req1 params = ListParser.Parse ps req2 params := by
  induction ps with
  | nil => intro params; rfl
  | cons m rest ih =>
    intro params
    have hm := h m (List.mem_cons_self m rest) params
    have hrest := ih (fun q hq => h q (List.mem_cons_of_mem m hq))
    rcases hx : m.Parse req2 params with ⟨p1, r⟩
    rw [hx] at hm
    cases r with
    | none => simp [ListParser.Parse, hx, hm, hrest]
    | some e => simp [ListParser.Parse, hx, hm]

theorem Concrete_Parse_same_on_requests (lib : GoLib) (p : Parser) (hp : Concrete lib p)
    (req1 req2 : Request) (hpath : req1.Path = req2.Path)
    (hkeys : ∀ k ∈ recognizedKeys, Values.Get req1.Query k = Values.Get req2.Query k) :
    ∀ params, p.Parse req1 params = p.Parse req2 params := by
  have hs : Values.Get req1.Query "source" = Values.Get req2.Query "source" :=
    hkeys _ (by simp [recognizedKeys])
  have hf : Values.Get req1.Query "format" = Values.Get req2.Query "format" :=
    hkeys _ (by simp [recognizedKeys])
  have hq : Values.Get req1.Query "quality" = Values.Get req2.Query "quality" :=
    hkeys _ (by simp [recognizedKeys])
  have hg : Values.Get req1.Query "gamma_correction"
      = Values.Get req2.Query "gamma_correction" := hkeys _ (by simp [recognizedKeys])
  induction hp with
  | source =>
    intro params
    simp [SourceParser, SourceParser.Parse, ParseQueryString, SourceParam, hs]
  | sourcePath =>
    intro params
    simp [SourcePathParser, SourcePathParser.Parse, hpath]
  | sourceURL inner Base _ ih =>
    intro params
    simp [SourceURLParser, SourceURLParser.Parse, ih params]
  | format =>
    intro params
    simp [FormatParser, FormatParser.Parse, ParseQueryString, hf]
  | quality =>
    intro params
    simp [QualityParser, QualityParser.Parse, ParseQueryInt, hq]
  | gammaCorrection =>
    intro params
    simp [GammaCorrectionParser, GammaCorrectionParser.Parse, ParseQueryBool, hg]
  | list ps _ ih =>
    exact ListParser.Parse_congr_req ps req1 req2 ih

/-- C16. Unrecognized query parameters are ignored: for every chain built from
`SourceParser`, `SourcePathParser`, `SourceURLParser`, `FormatParser`,
`QualityParser` and `GammaCorrectionParser`, every bag, and every two requests
that have the same URL path and the same first value for each of the query keys
`source`, `format`, `quality` and `gamma_correction`, `Parse` returns the same
result and produces the same bag, whatever other query keys the two requests
carry. -/
theorem C16_unrecognized_keys_ignored (lib : GoLib) (chain : List Parser)
    (hchain : ∀ p ∈ chain, Concrete lib p) (req1 req2 : Request) (params : Params)
    (hpath : req1.Path = req2.Path)
    (hkeys : ∀ k ∈ recognizedKeys, Values.Get req1.Query k = Values.Get req2.Query k) :
    (ListParser chain).Parse req1 params = (ListParser chain).Parse req2 params :=
  Concrete_Parse_same_on_requests lib (ListParser chain) (Concrete.list chain hchain) req1 req2
    hpath hkeys params

/-- Witness of C16: `/foobar?format=jpg&width=7&source=foo&quality=x` and
`/foobar?source=foo&quality=x&format=jpg&source=bar` agree on the path and on the
first values of the four keys, and the example chain treats them alike. -/
theorem C16_unrecognized_keys_ignored_witness :
    (∀ p ∈ chainFull, Concrete lib64 p)
      ∧ reqExtraKeys.Path = reqOtherKeys.Path
      ∧ (∀ k ∈ recognizedKeys,
          Values.Get reqExtraKeys.Query k = Values.Get reqOtherKeys.Query k)
      ∧ (ListParser chainFull).Parse reqExtraKeys bagWidth
          = (ListParser chainFull).Parse reqOtherKeys bagWidth :=
  ⟨chainFull_concrete, rfl, by decide,
    C16_unrecognized_keys_ignored lib64 chainFull chainFull_concrete reqExtraKeys
      reqOtherKeys bagWidth rfl (by decide)⟩

/-! ## Lemmas on the keys of the bag -/

theorem Params.Has_Set (params : Params) (key : String) (v : Value) (k : String)
    (h : params.Has k = true) : (params.Set key v).Has k = true := by
  by_cases hk : k = key
  · simp [Params.Has, Params.Set, hk]
  · simpa [Params.Has, Params.Set, hk] using h

theorem ParseQueryString_keeps (param : String) (req : Request) (params : Params)
    (k : String) (h : params.Has k = true) :
    (ParseQueryString param req params).Has k = true := by
  unfold ParseQueryString
  split
  · exact Params.Has_Set params _ _ k h
  · exact h

theorem ListParser.Parse_keeps (ps : List Parser) (req : Request) (k : String)
    (hps : ∀ p ∈ ps, ∀ params : Params, params.Has k = true →
      (p.Parse req params).1.Has k = true) :
    ∀ params : Params, params.Has k = true →
      (ListParser.Parse ps req params).1.Has k = true := by
  induction ps with
  | nil => intro params h; exact h
  | cons m rest ih =>
    intro params h
    have hm := hps m (List.mem_cons_self m rest) params h
    have hrest := ih (fun q hq => hps q (List.mem_cons_of_mem m hq))
    rcases hx : m.Parse req params with ⟨p1, r⟩
    rw [hx] at hm
    cases r with
    | none =>
      simp only [ListParser.Parse, hx]
      exact hrest p1 hm
    | some e =>
      simp only [ListParser.Parse, hx]
      exact hm

theorem Concrete_Parse_keeps_keys (lib : GoLib) (p : Parser) (hp : Concrete lib p)
    (req : Request) (k : String) :
    ∀ params : Params, params.Has k = true → (p.Parse req params).1.Has k = true := by
  induction hp with
  | source =>
    intro params h
    exact ParseQueryString_keeps SourceParam req params k h
  | sourcePath =>
    intro params h
    exact Params.Has_Set params _ _ k h
  | sourceURL inner Base _ ih =>
    intro params h
    have hin := ih params h
    rcases hx : inner.Parse req params with ⟨p1, r⟩
    rw [hx] at hin
    cases r with
    | some e =>
      simp only [SourceURLParser, SourceURLParser.Parse, hx]
      exact hin
    | none =>
      simp only [SourceURLParser, SourceURLParser.Parse, hx]
      split
      · exact hin
      · exact Params.Has_Set p1 _ _ k hin
  | format =>
    intro params h
    have h1 := ParseQueryString_keeps "format" req params k h
    simp only [FormatParser, FormatParser.Parse]
    split
    · exact h1
    · split
      · exact h1
      · exact Params.Has_Set _ _ _ k h1
  | quality =>
    intro params h
    simp only [QualityParser, QualityParser.Parse, ParseQueryInt]
    split
    · exact h
    · split
      · exact h
      · exact Params.Has_Set params _ _ k h
  | gammaCorrection =>
    intro params h
    simp only [GammaCorrectionParser, GammaCorrectionParser.Parse, ParseQueryBool]
    split
    · exact h
    · split
      · exact h
      · exact Params.Has_Set params _ _ k h
  | list ps _ ih =>
    exact ListParser.Parse_keeps ps req k ih

/-- C17. Keys are never removed: for every chain built from the concrete parsers
(`SourceParser`, `SourcePathParser`, `SourceURLParser`, `FormatParser`,
`QualityParser`, `GammaCorrectionParser`), every request and every bag, every
key present in the bag before `Parse` is still present after `Parse`, whether
`Parse` succeeds or returns an error. -/
theorem C17_keys_never_removed (lib : GoLib) (chain : List Parser)
    (hchain : ∀ p ∈ chain, Concrete lib p) (req : Request) (params : Params) (k : String)
    (hbefore : params.Has k = true) :
    ((ListParser chain).Parse req params).1.Has k = true :=
  Concrete_Parse_keeps_keys lib (ListParser chain) (Concrete.list chain hchain) req k params
    hbefore

/-- Witness of C17: the example chain on
`/foobar?format=jpg&width=7&source=foo&quality=x` stops with the error of the
quality parser, and the key `width` of the bag `{"width": 100}` is still
there. -/
theorem C17_keys_never_removed_witness :
    (∀ p ∈ chainFull, Concrete lib64 p)
      ∧ bagWidth.Has "width" = true
      ∧ ((ListParser chainFull).Parse reqExtraKeys bagWidth).2
          = some (.ParamError "quality"
              "parse int: strconv.Atoi: parsing \"x\": invalid syntax")
      ∧ ((ListParser chainFull).Parse reqExtraKeys bagWidth).1.Has "width" = true :=
  ⟨chainFull_concrete, by decide, by decide,
    C17_keys_never_removed lib64 chainFull chainFull_concrete reqExtraKeys bagWidth "width"
      (by decide)⟩

/-! ## Lemmas on the query parsers -/

theorem Params.Has_Set_inv (params : Params) (key : String) (v : Value) (k : String)
    (h : (params.Set key v).Has k = true) : k = key ∨ params.Has k = true := by
  by_cases hk : k = key
  · exact Or.inl hk
  · right
    simpa [Params.Has, Params.Set, hk] using h

theorem ParseQueryString_Has_inv (param : String) (req : Request) (params : Params)
    (k : String) (h : (ParseQueryString param req params).Has k = true) :
    params.Has k = true ∨ (k = param ∧ Values.Get req.Query param ≠ "") := by
  unfold ParseQueryString at h
  split at h
  · rename_i hv
    rcases Params.Has_Set_inv params _ _ k h with hk | hk
    · exact Or.inr ⟨hk, hv⟩
    · exact Or.inl hk
  · exact Or.inl h

theorem QueryParser_Parse_key_origin (lib : GoLib) (m : Parser) (hm : QueryParser lib m)
    (req : Request) (params : Params) (k : String)
    (h : (m.Parse req params).1.Has k = true) :
    params.Has k = true
      ∨ (m.Resolve k = k ∧ k ≠ "" ∧ Values.Get req.Query k ≠ "") := by
  cases hm with
  | source =>
    rcases ParseQueryString_Has_inv SourceParam req params k h with hk | ⟨hk, hv⟩
    · exact Or.inl hk
    · subst hk
      exact Or.inr ⟨by decide, by decide, hv⟩
  | format =>
    have h1 : (ParseQueryString "format" req params).Has k = true := by
      simp only [FormatParser, FormatParser.Parse] at h
      split at h
      · exact h
      · rename_i hhas
        split at h
        · exact h
        · rcases Params.Has_Set_inv _ _ _ k h with hk | hk
          · subst hk
            simpa using hhas
          · exact hk
    rcases ParseQueryString_Has_inv "format" req params k h1 with hk | ⟨hk, hv⟩
    · exact Or.inl hk
    · subst hk
      exact Or.inr ⟨by decide, by decide, hv⟩
  | quality =>
    simp only [QualityParser, QualityParser.Parse, ParseQueryInt] at h
    split at h
    · exact Or.inl h
    · rename_i hv
      split at h
      · exact Or.inl h
      · rcases Params.Has_Set_inv _ _ _ k h with hk | hk
        · subst hk
          exact Or.inr ⟨rfl, by decide, hv⟩
        · exact Or.inl hk
  | gammaCorrection =>
    simp only [GammaCorrectionParser, GammaCorrectionParser.Parse, ParseQueryBool] at h
    split at h
    · exact Or.inl h
    · rename_i hv
      split at h
      · exact Or.inl h
      · rcases Params.Has_Set_inv _ _ _ k h with hk | hk
        · subst hk
          exact Or.inr ⟨rfl, by decide, hv⟩
        · exact Or.inl hk

theorem QueryParser.Resolve_cases (lib : GoLib) (m : Parser) (hm : QueryParser lib m)
    (k : String) : m.Resolve k = "" ∨ m.Resolve k = k := by
  cases hm with
  | source =>
    by_cases h : k = SourceParam <;> simp [SourceParser, SourceParser.Resolve, h]
  | format =>
    by_cases h : k = "format" <;> simp [FormatParser, FormatParser.Resolve, h]
  | quality =>
    by_cases h : k = "quality" <;> simp [QualityParser, QualityParser.Resolve, h]
  | gammaCorrection =>
    by_cases h : k = "gamma_correction" <;>
      simp [GammaCorrectionParser, GammaCorrectionParser.Resolve, h]

theorem ListParser.Parse_Has_inv (lib : GoLib) (req : Request) (k : String)
    (chain : List Parser) (hchain : ∀ p ∈ chain, QueryParser lib p) :
    ∀ params : Params, (ListParser.Parse chain req params).1.Has k = true →
      params.Has k = true
        ∨ ((∃ m ∈ chain, m.Resolve k = k) ∧ k ≠ "" ∧ Values.Get req.Query k ≠ "") := by
  induction chain with
  | nil => intro params h; exact Or.inl h
  | cons m rest ih =>
    intro params h
    have hm := hchain m (List.mem_cons_self m rest)
    have hrest := ih (fun q hq => hchain q (List.mem_cons_of_mem m hq))
    have hmember : (m.Parse req params).1.Has k = true →
        params.Has k = true
          ∨ ((∃ x ∈ m :: rest, x.Resolve k = k) ∧ k ≠ "" ∧ Values.Get req.Query k ≠ "") := by
      intro h1
      rcases QueryParser_Parse_key_origin lib m hm req params k h1 with hk | ⟨hr, hne, hv⟩
      · exact Or.inl hk
      · exact Or.inr ⟨⟨m, List.mem_cons_self m rest, hr⟩, hne, hv⟩
    rcases hx : m.Parse req params with ⟨p1, r⟩
    rw [hx] at hmember
    cases r with
    | some e =>
      simp only [ListParser.Parse, hx] at h
      exact hmember h
    | none =>
      simp only [ListParser.Parse, hx] at h
      rcases hrest p1 h with hk | ⟨⟨x, hxmem, hxr⟩, hne, hv⟩
      · exact hmember hk
      · exact Or.inr ⟨⟨x, List.mem_cons_of_mem m hxmem, hxr⟩, hne, hv⟩

theorem ListParser.Resolve_own_key (lib : GoLib) (k : String) (hk : k ≠ "")
    (chain : List Parser) (hchain : ∀ p ∈ chain, QueryParser lib p)
    (hex : ∃ m ∈ chain, m.Resolve k = k) : ListParser.Resolve chain k = k := by
  induction chain with
  | nil =>
    obtain ⟨m, hm, _⟩ := hex
    exact absurd hm (List.not_mem_nil m)
  | cons x rest ih =>
    rcases QueryParser.Resolve_cases lib x (hchain x (List.mem_cons_self x rest)) k
      with hx | hx
    · have hrest : ∃ m ∈ rest, m.Resolve k = k := by
        obtain ⟨m, hm, hmr⟩ := hex
        rcases List.mem_cons.mp hm with rfl | hm
        · rw [hx] at hmr
          exact absurd hmr.symm hk
        · exact ⟨m, hm, hmr⟩
      simp only [ListParser.Resolve, hx, ne_eq, not_true_eq_false, if_false]
      exact ih (fun q hq => hchain q (List.mem_cons_of_mem x hq)) hrest
    · have hne : x.Resolve k ≠ "" := by rw [hx]; exact hk
      simp only [ListParser.Resolve, hne, ne_eq, not_false_eq_true, if_true]
      exact hx

/-- C20. Forward parse and reverse resolve agree for the query parsers: for every
chain made only of `SourceParser`, `FormatParser`, `QualityParser` and
`GammaCorrectionParser`, and every request, after `Parse` on an initially empty
bag (whether it succeeded or returned an error) every key `k` present in the bag
satisfies `chain.Resolve(k) = k` and the query of the request holds a non-empty
value under `k`. -/
theorem C20_parse_resolve_agree (lib : GoLib) (chain : List Parser)
    (hchain : ∀ p ∈ chain, QueryParser lib p) (req : Request) (k : String)
    (hpresent : ((ListParser chain).Parse req Params.empty).1.Has k = true) :
    (ListParser chain).Resolve k = k ∧ Values.Get req.Query k ≠ "" := by
  rcases ListParser.Parse_Has_inv lib req k chain hchain Params.empty hpresent
    with h | ⟨hex, hne, hv⟩
  · simp [Params.Has, Params.empty] at h
  · exact ⟨ListParser.Resolve_own_key lib k hne chain hchain hex, hv⟩

/-- Witness of C20: the chain quality, source, format, gamma correction on
`/foobar?source=foo&utm=1` and the empty bag leaves the key `source` in the bag;
the chain resolves `source` to `source`, and the query holds `foo` for it. -/
theorem C20_parse_resolve_agree_witness :
    (∀ p ∈ chainQuery, QueryParser lib64 p)
      ∧ ((ListParser chainQuery).Parse reqSourceFoo Params.empty).1.Has "source" = true
      ∧ (ListParser chainQuery).Resolve "source" = "source"
      ∧ Values.Get reqSourceFoo.Query "source" ≠ "" :=
  ⟨chainQuery_query, by decide,
    C20_parse_resolve_agree lib64 chainQuery chainQuery_query reqSourceFoo "source"
      (by decide)⟩

/-! ## Lemmas on the base URL as a shared object -/

theorem SourceURLParser.ParseAt_spec (lib : GoLib) (inner : Parser) (store : List URL)
    (Base : Nat) (base : URL) (req : Request) (params : Params)
    (hbase : store[Base]? = some base) :
    ∃ store1, SourceURLParser.ParseAt lib inner store Base req params
        = some (store1, (SourceURLParser lib inner base).Parse req params)
      ∧ (∀ a, a < store.length → store1[a]? = store[a]?) := by
  rcases hx : inner.Parse req params with ⟨p1, r⟩
  cases r with
  | some e =>
    exact ⟨store, by simp [SourceURLParser.ParseAt, SourceURLParser, SourceURLParser.Parse, hx],
      fun _ _ => rfl⟩
  | none =>
    by_cases hhas : p1.Has SourceParam = true
    · refine ⟨(store ++ [base]).set store.length
        { base with Path := base.Path ++ Sprint lib (match p1.Get SourceParam with
          | .ok v => v
          | .error _ => Value.nil) }, ?_, ?_⟩
      · simp [SourceURLParser.ParseAt, SourceURLParser, SourceURLParser.Parse, hx, hhas,
          copyURLAt, appendPathAt, derefURL, hbase, copyURL]
      · intro a ha
        rw [List.getElem?_set_ne (by omega), List.getElem?_append_left ha]
    · exact ⟨store, by simp [SourceURLParser.ParseAt, SourceURLParser, SourceURLParser.Parse,
        hx, hhas], fun _ _ => rfl⟩

/-- C18. The base URL is never mutated: for every `SourceURLParser`, request and
bag, the URL object the field `Base` points to is the same after `Parse` as
before, in every component, whether or not a composite URL was written to the
bag; the path concatenation is applied to a copy. The call does not panic, and
its bag and error are those of `Parse` on the contents of the base URL. -/
theorem C18_base_URL_not_mutated (lib : GoLib) (inner : Parser) (store : List URL)
    (Base : Nat) (base : URL) (req : Request) (params : Params)
    (hbase : derefURL store Base = some base) :
    ∃ store1, SourceURLParser.ParseAt lib inner store Base req params
        = some (store1, (SourceURLParser lib inner base).Parse req params)
      ∧ derefURL store1 Base = some base
      ∧ (∀ a, a < store.length → derefURL store1 a = derefURL store a) := by
  obtain ⟨store1, h1, h2⟩ :=
    SourceURLParser.ParseAt_spec lib inner store Base base req params hbase
  have hlt : Base < store.length := by
    by_contra hge
    have hnone : store[Base]? = none := List.getElem?_eq_none (by omega)
    have hb : store[Base]? = some base := hbase
    rw [hnone] at hb
    cases hb
  refine ⟨store1, h1, ?_, h2⟩
  have := h2 Base hlt
  unfold derefURL
  rw [this]
  exact hbase

/-- Witness of C18: a store holding `http://store/image` alone, the path parser
as inner parser and the request `/foobar`: the composite URL is a second object
of the store, and the base URL is still `http://store/image`. -/
theorem C18_base_URL_not_mutated_witness :
    derefURL [storeURL] 0 = some storeURL
      ∧ (SourceURLParser.ParseAt lib64 SourcePathParser [storeURL] 0 reqFoobar
            Params.empty).map (fun r => r.1) = some [storeURL, storeFoobarURL]
      ∧ ∃ store1, SourceURLParser.ParseAt lib64 SourcePathParser [storeURL] 0 reqFoobar
            Params.empty
          = some (store1, (SourceURLParser lib64 SourcePathParser storeURL).Parse reqFoobar
              Params.empty)
        ∧ derefURL store1 0 = some storeURL
        ∧ (∀ a, a < [storeURL].length → derefURL store1 a = derefURL [storeURL] a) :=
  ⟨rfl, by decide,
    C18_base_URL_not_mutated lib64 SourcePathParser [storeURL] 0 storeURL reqFoobar
      Params.empty rfl⟩

end ImageServer
